import Mathlib

/-!
# Verification of the Realm users migration exporter

Shallow embedding of `src/index.ts` and `src/atlas.ts`:

* raw and normalized user records (data model of §3 of the spec);
* `getUsersFromAppServices` / `getPendingUsersFromAppServices` URL
  construction (`atlas.ts` lines 62–92 and 156–185);
* the cursor-pagination loops of `getUsers` / `getPendingUsers`
  (`atlas.ts` lines 104–143 and 198–252), modelled over the finite list of
  responses the server returns to the successive requests;
* the pending-user transform including the `new Date(d).getTime()/1000`
  timestamp computation;
* the output-path sanitization `path.join('output', path.basename(f))`
  of `index.ts` lines 67–69, with Node's posix `basename`/`join` semantics;
* the `main` control flow of `index.ts` lines 47–187 (validation, login,
  two fetches, envelope, write-or-print decision, exit codes) over an
  abstract world supplying the login outcome, the server pages and the
  filesystem outcome.
-/

/-- Raw active-user record as consumed by `getUsers` (`atlas.ts` 131–136):
the fields read are `_id`, `data.email` and `creation_date`. -/
structure RawUserData where
  email : String
deriving Repr, DecidableEq

/-- Raw active-user record returned by the users endpoint. -/
structure RawUser where
  _id : Int
  data : RawUserData
  creation_date : Int
deriving Repr, DecidableEq

/-- One entry of a pending user's `login_ids` array; the transform reads
its `id` field (`atlas.ts` 242). -/
structure LoginId where
  id : String
deriving Repr, DecidableEq

/-- Raw pending-user record returned by the pending-users endpoint. -/
structure RawPendingUser where
  _id : Int
  login_ids : List LoginId
deriving Repr, DecidableEq

/-- Normalized output record (§3: `{id, email, createdAt, status}`).
`createdAt = none` models the JavaScript `NaN` a failed date parse
produces; active users always carry `some creation_date`. -/
structure NormalizedUser where
  id : Int
  email : String
  createdAt : Option Int
  status : String
deriving Repr, DecidableEq

/-- Query-string fragment of `getUsersFromAppServices` (`atlas.ts` 70):
`lastId === 0 ? '' : "?after=" + lastId`. -/
def userQuery (lastId : Int) : String :=
  if lastId = 0 then "" else "?after=" ++ toString lastId

/-- Request URL of `getUsersFromAppServices` (`atlas.ts` 71). -/
def usersUrl (groupID appID : String) (lastId : Int) : String :=
  "https://services.cloud.mongodb.com/api/admin/v3.0/groups/" ++ groupID ++
    "/apps/" ++ appID ++ "/users" ++ userQuery lastId

/-- Request URL of `getPendingUsersFromAppServices` (`atlas.ts` 164–165). -/
def pendingUsersUrl (groupID appID : String) (lastId : Int) : String :=
  "https://services.cloud.mongodb.com/api/admin/v3.0/groups/" ++ groupID ++
    "/apps/" ++ appID ++ "/user_registrations/pending_users" ++ userQuery lastId

/-- Outcome of a pagination loop run against a finite list of server
responses: `ok` with the concatenated records, `httpError` when a request
got an error response, `diverge` when the loop consumed every modelled
response and issued yet another request (the loop of `atlas.ts` 117–127
has no guard besides an empty page). Every constructor carries the list
of `lastId` cursors of the requests issued so far, in order. -/
inductive FetchOutcome (α : Type) where
  | ok (records : List α) (reqs : List Int)
  | httpError (reqs : List Int)
  | diverge (reqs : List Int)
deriving Repr, DecidableEq

/-- The cursors a `FetchOutcome` carries, in any constructor. -/
def FetchOutcome.reqsOf {α : Type} : FetchOutcome α → List Int
  | .ok _ reqs => reqs
  | .httpError reqs => reqs
  | .diverge reqs => reqs

/-- The `while (returnedUsers && returnedUsers.length)` loop of
`getUsers` (`atlas.ts` 117–127) and `getPendingUsers` (217–232).
`resps` are the responses the server will give to the successive
requests (`Except.error` = failed HTTP call), `returned` the page of the
previous request, `acc` the accumulated records and `reqs` the cursors
sent so far. Each iteration re-requests with the `_id` of the last
record of the previous page. -/
def paginateLoop {α : Type} (getId : α → Int) :
    List (Except Unit (List α)) → List α → List α → List Int → FetchOutcome α
  | [], returned, acc, reqs =>
    match returned.getLast? with
    | none => .ok acc reqs
    | some lastU => .diverge (reqs ++ [getId lastU])
  | .error _ :: _, returned, acc, reqs =>
    match returned.getLast? with
    | none => .ok acc reqs
    | some lastU => .httpError (reqs ++ [getId lastU])
  | .ok page :: rest, returned, acc, reqs =>
    match returned.getLast? with
    | none => .ok acc reqs
    | some lastU => paginateLoop getId rest page (acc ++ page) (reqs ++ [getId lastU])

/-- Whole pagination of `getUsers`/`getPendingUsers`: one unconditional
first request with the cursor defaulted to `0` (`atlas.ts` 114, 67),
then the loop. -/
def paginate {α : Type} (getId : α → Int)
    (resps : List (Except Unit (List α))) : FetchOutcome α :=
  match resps with
  | [] => .diverge [0]
  | .error _ :: _ => .httpError [0]
  | .ok page :: rest => paginateLoop getId rest page page [0]

/-- Active-user projection of `getUsers` (`atlas.ts` 131–136). -/
def userTransform (u : RawUser) : NormalizedUser :=
  { id := u._id, email := u.data.email, createdAt := some u.creation_date,
    status := "active" }

/-- Result of a whole fetch-and-transform operation. `typeError` models
the `TypeError` thrown by `user.login_ids[0].id` on an empty
`login_ids` array. -/
inductive OpResult where
  | ok (records : List NormalizedUser) (reqs : List Int)
  | httpError (reqs : List Int)
  | typeError (reqs : List Int)
  | diverge (reqs : List Int)
deriving Repr, DecidableEq

/-- `getUsers` (`atlas.ts` 104–143): paginate, then map the active-user
projection over the concatenated records. -/
def getUsers (resps : List (Except Unit (List RawUser))) : OpResult :=
  match paginate RawUser._id resps with
  | .ok recs reqs => .ok (recs.map userTransform) reqs
  | .httpError reqs => .httpError reqs
  | .diverge reqs => .diverge reqs

/-- Numeric value of an ASCII digit. -/
def digitVal (c : Char) : Nat := c.toNat - 48

/-- Parse a `YYYY-MM-DD` shaped string into its numeric components:
exactly four digits, `-`, two digits, `-`, two digits. -/
def parseYMD (s : String) : Option (Nat × Nat × Nat) :=
  match s.data with
  | [y1, y2, y3, y4, s1, m1, m2, s2, d1, d2] =>
      if y1.isDigit && y2.isDigit && y3.isDigit && y4.isDigit &&
          s1 = '-' && m1.isDigit && m2.isDigit &&
          s2 = '-' && d1.isDigit && d2.isDigit then
        some (1000 * digitVal y1 + 100 * digitVal y2 + 10 * digitVal y3 + digitVal y4,
              10 * digitVal m1 + digitVal m2,
              10 * digitVal d1 + digitVal d2)
      else none
  | _ => none

/-- Gregorian leap-year test. -/
def isLeapYear (y : Nat) : Bool :=
  (y % 4 = 0 && y % 100 ≠ 0) || y % 400 = 0

/-- Number of days of month `m` of year `y`. -/
def daysInMonth (y m : Nat) : Nat :=
  if m = 2 then (if isLeapYear y then 29 else 28)
  else if m = 4 || m = 6 || m = 9 || m = 11 then 30
  else 31

/-- A month/day pair denotes a real calendar date of year `y` (ECMAScript
rejects out-of-range components of a date-only ISO string). -/
def validYMD (y m d : Nat) : Bool :=
  1 ≤ m && m ≤ 12 && 1 ≤ d && d ≤ daysInMonth y m

/-- Days from 1970-01-01 to `y-m-d` in the proleptic Gregorian calendar
(`days_from_civil`, floor-division form). -/
def daysFromCivil (y m d : Int) : Int :=
  let yp := if m ≤ 2 then y - 1 else y
  let era := Int.fdiv yp 400
  let yoe := yp - era * 400
  let mp := Int.emod (m + 9) 12
  let doy := Int.fdiv (153 * mp + 2) 5 + d - 1
  let doe := yoe * 365 + Int.fdiv yoe 4 - Int.fdiv yoe 100 + doy
  era * 146097 + doe - 719468

/-- `new Date(pendingUserDate).getTime() / 1000` of `atlas.ts` 238 for a
date-only string: ECMAScript parses `YYYY-MM-DD` as midnight UTC and
yields epoch milliseconds; `none` models the `NaN` of an invalid date. -/
def toTimestamp (s : String) : Option Int :=
  match parseYMD s with
  | none => none
  | some (y, m, d) =>
      if validYMD y m d then some (86400 * daysFromCivil y m d) else none

/-- Per-record pending-user projection (`atlas.ts` 240–245); `none`
models the `TypeError` of `user.login_ids[0].id` when `login_ids` is
empty. -/
def pendingTransform (ts : Option Int) (u : RawPendingUser) : Option NormalizedUser :=
  match u.login_ids with
  | [] => none
  | l :: _ => some { id := u._id, email := l.id, createdAt := ts, status := "pending" }

/-- `pendingUsers.map(...)` of `atlas.ts` 240–245: the first record with
empty `login_ids` aborts the whole map with a `TypeError`. -/
def mapPending (ts : Option Int) : List RawPendingUser → Option (List NormalizedUser)
  | [] => some []
  | u :: rest =>
    match pendingTransform ts u, mapPending ts rest with
    | some v, some out => some (v :: out)
    | _, _ => none

/-- `getPendingUsers` (`atlas.ts` 198–252): paginate, compute the single
run-wide timestamp from `pendingUserDate`, then map the pending
projection over the concatenated records. -/
def getPendingUsers (resps : List (Except Unit (List RawPendingUser)))
    (pendingUserDate : String) : OpResult :=
  match paginate RawPendingUser._id resps with
  | .ok recs reqs =>
    match mapPending (toTimestamp pendingUserDate) recs with
    | some out => .ok out reqs
    | none => .typeError reqs
  | .httpError reqs => .httpError reqs
  | .diverge reqs => .diverge reqs

/-- Node's posix `path.basename(p)` (no extension argument): drop
trailing separators, then take the final path segment. -/
def basename (p : String) : String :=
  let cs := p.data.reverse.dropWhile (fun c => c = '/')
  String.mk (cs.takeWhile (fun c => c ≠ '/')).reverse

/-- Split a character list on `/`, keeping empty segments. -/
def splitSlashAux : List Char → List Char → List String
  | [], cur => [String.mk cur.reverse]
  | c :: rest, cur =>
    if c = '/' then String.mk cur.reverse :: splitSlashAux rest []
    else splitSlashAux rest (c :: cur)

/-- Path segments of a string, split on `/`. -/
def splitSlash (s : String) : List String := splitSlashAux s.data []

/-- Node's posix path normalization on the segments of a relative path:
drop empty and `.` segments; `..` pops the previous real segment and is
kept when there is nothing left to pop. -/
def normSegsAux : List String → List String → List String
  | acc, [] => acc.reverse
  | acc, s :: rest =>
    if s = "" || s = "." then normSegsAux acc rest
    else if s = ".." then
      match acc with
      | [] => normSegsAux [".."] rest
      | a :: tl =>
        if a = ".." then normSegsAux (".." :: acc) rest else normSegsAux tl rest
    else normSegsAux (s :: acc) rest

/-- Join normalized segments back with `/`. -/
def joinSegs : List String → String
  | [] => ""
  | [s] => s
  | s :: rest => s ++ "/" ++ joinSegs rest

/-- Node's posix `path.join(a, b)` for relative `a` (the call site only
ever passes `a = "output"`): concatenate the non-empty parts with `/`
and normalize; an empty normalization yields `"."`. -/
def posixJoin (a b : String) : String :=
  let joined := if a = "" then b else if b = "" then a else a ++ "/" ++ b
  if joined = "" then "."
  else
    match normSegsAux [] (splitSlash joined) with
    | [] => "."
    | segs => joinSegs segs

/-- `index.ts` 67–69: `rawOutputFile ? path.join('output',
path.basename(rawOutputFile)) : undefined` (the empty string is falsy). -/
def resolveOutputFile : Option String → Option String
  | none => none
  | some raw => if raw = "" then none else some (posixJoin "output" (basename raw))

/-- The path contains a `..` segment. -/
def hasParentSegment (p : String) : Bool := (splitSlash p).contains ".."

/-- The path lies strictly inside the `output` directory: its first
segment is `output` and something follows. -/
def insideOutputDir (p : String) : Bool :=
  match splitSlash p with
  | "output" :: rest => !rest.isEmpty
  | _ => false

/-- The `/^\d{4}-\d{2}-\d{2}$/` test of `index.ts` 100: exactly the
shape `parseYMD` accepts. -/
def matchesYMD (s : String) : Bool := (parseYMD s).isSome

/-- The four environment variables read by `main` (`index.ts` 52–55);
`none` models an unset variable. -/
structure EnvVars where
  username : Option String
  apiKey : Option String
  groupId : Option String
  appId : Option String
deriving Repr, DecidableEq

/-- The CLI flags of `index.ts` 16–45 after yargs parsing. `outputFile`
is optional; the others have defaults, so they are always present. -/
structure Args where
  dryRun : Bool
  verbose : Bool
  batchSize : Int
  outputFile : Option String
  pendingUserDate : String
deriving Repr, DecidableEq

/-- JavaScript falsiness of a `string | undefined` value: `undefined`
or the empty string. -/
def falsy : Option String → Bool
  | none => true
  | some s => s = ""

/-- The validation block of `index.ts` 74–102: any falsy required
environment variable throws, and a truthy `pendingUserDate` failing the
`YYYY-MM-DD` regex throws. -/
def configError (env : EnvVars) (pendingUserDate : String) : Bool :=
  falsy env.username || falsy env.apiKey || falsy env.groupId || falsy env.appId ||
    (pendingUserDate ≠ "" && !matchesYMD pendingUserDate)

deriving instance DecidableEq for Except

/-- Abstract outside world of one run: the login outcome, the pages the
two endpoints return to the successive requests, whether the filesystem
write succeeds, and the `new Date().toISOString()` export date. -/
structure World where
  login : Except Unit String
  userResps : List (Except Unit (List RawUser))
  pendingResps : List (Except Unit (List RawPendingUser))
  writeOk : Bool
  exportDate : String
deriving Repr, DecidableEq

/-- The metadata block of the export envelope (`index.ts` 133–140). -/
structure Metadata where
  exportDate : String
  groupId : String
  appId : String
  totalUsers : Nat
  totalPendingUsers : Nat
  pendingUserDate : String
deriving Repr, DecidableEq

/-- The export envelope (`index.ts` 132–143). -/
structure Envelope where
  metadata : Metadata
  users : List NormalizedUser
  pendingUsers : List NormalizedUser
deriving Repr, DecidableEq

/-- Observable outcome of one run of `main`. `exitCode = none` models a
run that never terminates (unbounded pagination); `wrote` is the single
file written with its content; `printed` is the dry-run summary: the
metadata and, for each of the two sets, its first record when the set is
non-empty (`index.ts` 156–180). -/
structure RunResult where
  exitCode : Option Nat
  loginCalls : Nat
  userReqs : List Int
  pendingReqs : List Int
  wrote : Option (String × Envelope)
  printed : Option (Metadata × Option NormalizedUser × Option NormalizedUser)
deriving Repr, DecidableEq

/-- The body of `main` (`index.ts` 47–187): resolve the output path,
derive the dry-run flag, validate, authenticate, fetch both sets, build
the envelope, then write or print. Every thrown error reaches the
top-level catch, which calls `process.exit(1)`; success ends with exit
code 0. -/
def runMain (env : EnvVars) (args : Args) (w : World) : RunResult :=
  if configError env args.pendingUserDate then
    ⟨some 1, 0, [], [], none, none⟩
  else
    match w.login with
    | .error _ => ⟨some 1, 1, [], [], none, none⟩
    | .ok _token =>
      match getUsers w.userResps with
      | .httpError r => ⟨some 1, 1, r, [], none, none⟩
      | .typeError r => ⟨some 1, 1, r, [], none, none⟩
      | .diverge r => ⟨none, 1, r, [], none, none⟩
      | .ok users ur =>
        match getPendingUsers w.pendingResps args.pendingUserDate with
        | .httpError r => ⟨some 1, 1, ur, r, none, none⟩
        | .typeError r => ⟨some 1, 1, ur, r, none, none⟩
        | .diverge r => ⟨none, 1, ur, r, none, none⟩
        | .ok pendingUsers pr =>
          match resolveOutputFile args.outputFile,
              args.dryRun || (resolveOutputFile args.outputFile).isNone with
          | some f, false =>
            if w.writeOk then
              ⟨some 0, 1, ur, pr,
                some (f, ⟨⟨w.exportDate, env.groupId.getD "", env.appId.getD "",
                  users.length, pendingUsers.length, args.pendingUserDate⟩,
                  users, pendingUsers⟩), none⟩
            else ⟨some 1, 1, ur, pr, none, none⟩
          | _, _ =>
            ⟨some 0, 1, ur, pr, none,
              some (⟨w.exportDate, env.groupId.getD "", env.appId.getD "",
                users.length, pendingUsers.length, args.pendingUserDate⟩,
                users.head?, pendingUsers.head?)⟩

/-- A run succeeds when validation passes, login succeeds, both fetches
terminate without error, the transform does not throw, and — when the
write branch is taken — the filesystem write succeeds. -/
def runSuccess (env : EnvVars) (args : Args) (w : World) : Prop :=
  configError env args.pendingUserDate = false ∧
  (∃ t, w.login = .ok t) ∧
  (∃ us ur, getUsers w.userResps = .ok us ur) ∧
  (∃ ps pr, getPendingUsers w.pendingResps args.pendingUserDate = .ok ps pr) ∧
  ((resolveOutputFile args.outputFile).isSome ∧ args.dryRun = false →
    w.writeOk = true)

/-- Cursor derived from a page: the `_id` of its last record, `0` for an
empty page (never used on the loop's path, where pages are non-empty). -/
def lastCursor {α : Type} (getId : α → Int) (p : List α) : Int :=
  match p.getLast? with
  | some u => getId u
  | none => 0

/-- Modelled from the spec: the request cursors §4.2 prescribes — start
at the empty sentinel (no query parameter, `0`), then after each page the
identifier of the last record of that page; no request follows the empty
final page. -/
def specCursors {α : Type} (getId : α → Int) (pages : List (List α)) : List Int :=
  0 :: pages.dropLast.map (lastCursor getId)

theorem paginateLoop_ok {α : Type} (getId : α → Int) :
    ∀ (pages : List (List α)) (returned acc : List α) (reqs : List Int),
    (∀ p ∈ pages.dropLast, p ≠ []) → pages.getLast? = some [] → returned ≠ [] →
    paginateLoop getId (pages.map Except.ok) returned acc reqs =
      .ok (acc ++ pages.flatten)
        (reqs ++ lastCursor getId returned :: pages.dropLast.map (lastCursor getId)) := by
  intro pages
  induction pages with
  | nil => intro returned acc reqs _ hlast _; simp at hlast
  | cons p rest ih =>
    intro returned acc reqs hne hlast hret
    obtain ⟨u, hu⟩ : ∃ u, returned.getLast? = some u :=
      ⟨returned.getLast hret, List.getLast?_eq_getLast returned hret⟩
    rcases eq_or_ne rest [] with hrest | hrest
    · subst hrest
      simp only [List.getLast?] at hlast
      injection hlast with hp
      subst hp
      simp [paginateLoop, hu, lastCursor]
    · have hp : p ≠ [] := by
        apply hne
        rw [List.dropLast_cons_of_ne_nil hrest]
        exact List.mem_cons_self p _
      have hlast' : rest.getLast? = some [] := by
        obtain ⟨q, qs, rfl⟩ := List.exists_cons_of_ne_nil hrest
        rwa [List.getLast?_cons_cons] at hlast
      have hne' : ∀ q ∈ rest.dropLast, q ≠ [] := by
        intro q hq
        apply hne
        rw [List.dropLast_cons_of_ne_nil hrest]
        exact List.mem_cons_of_mem p hq
      have step : paginateLoop getId ((p :: rest).map Except.ok) returned acc reqs =
          paginateLoop getId (rest.map Except.ok) p (acc ++ p) (reqs ++ [getId u]) := by
        simp [paginateLoop, hu]
      rw [step, ih p (acc ++ p) (reqs ++ [getId u]) hne' hlast' hp]
      simp [List.dropLast_cons_of_ne_nil hrest, lastCursor, hu]

theorem paginate_ok {α : Type} (getId : α → Int) (pages : List (List α))
    (hne : ∀ p ∈ pages.dropLast, p ≠ []) (hlast : pages.getLast? = some []) :
    paginate getId (pages.map Except.ok) = .ok pages.flatten (specCursors getId pages) := by
  match pages with
  | [] => simp at hlast
  | p :: rest =>
    rcases eq_or_ne rest [] with hrest | hrest
    · subst hrest
      simp only [List.getLast?] at hlast
      injection hlast with hp
      subst hp
      simp [paginate, paginateLoop, specCursors]
    · have hp : p ≠ [] := by
        apply hne
        rw [List.dropLast_cons_of_ne_nil hrest]
        exact List.mem_cons_self p _
      have hlast' : rest.getLast? = some [] := by
        obtain ⟨q, qs, rfl⟩ := List.exists_cons_of_ne_nil hrest
        rwa [List.getLast?_cons_cons] at hlast
      have hne' : ∀ q ∈ rest.dropLast, q ≠ [] := by
        intro q hq
        apply hne
        rw [List.dropLast_cons_of_ne_nil hrest]
        exact List.mem_cons_of_mem p hq
      have : paginate getId ((p :: rest).map Except.ok) =
          paginateLoop getId (rest.map Except.ok) p p [0] := by
        simp [paginate]
      rw [this, paginateLoop_ok getId rest p p [0] hne' hlast' hp]
      simp [specCursors, List.dropLast_cons_of_ne_nil hrest, lastCursor,
        List.getLast?_eq_getLast p hp]

/-- Total form of the pending projection on records whose `login_ids`
is non-empty. -/
def pendingProject (ts : Option Int) (u : RawPendingUser) : NormalizedUser :=
  { id := u._id,
    email := match u.login_ids with
      | [] => ""
      | l :: _ => l.id,
    createdAt := ts, status := "pending" }

theorem mapPending_total (ts : Option Int) :
    ∀ l : List RawPendingUser, (∀ u ∈ l, u.login_ids ≠ []) →
    mapPending ts l = some (l.map (pendingProject ts)) := by
  intro l
  induction l with
  | nil => intro _; rfl
  | cons u rest ih =>
    intro h
    have hu : u.login_ids ≠ [] := h u (List.mem_cons_self u rest)
    obtain ⟨lg, lgs, hlg⟩ := List.exists_cons_of_ne_nil hu
    have hrest := ih (fun v hv => h v (List.mem_cons_of_mem u hv))
    simp [mapPending, pendingTransform, pendingProject, hlg, hrest]

theorem mapPending_fields (ts : Option Int) :
    ∀ (l : List RawPendingUser) (out : List NormalizedUser),
    mapPending ts l = some out →
    ∀ u ∈ out, u.status = "pending" ∧ u.createdAt = ts := by
  intro l
  induction l with
  | nil =>
    intro out h u hu
    simp only [mapPending, Option.some.injEq] at h
    subst h
    simp at hu
  | cons v rest ih =>
    intro out h u hu
    simp only [mapPending] at h
    cases hv : pendingTransform ts v with
    | none => rw [hv] at h; simp at h
    | some nv =>
      rw [hv] at h
      cases hrest : mapPending ts rest with
      | none => rw [hrest] at h; simp at h
      | some nrest =>
        rw [hrest] at h
        simp only [Option.some.injEq] at h
        subst h
        rcases List.mem_cons.mp hu with rfl | hmem
        · unfold pendingTransform at hv
          rcases hl : v.login_ids with _ | ⟨lg, lgs⟩
          · rw [hl] at hv; simp at hv
          · rw [hl] at hv
            simp only [Option.some.injEq] at hv
            subst hv
            exact ⟨rfl, rfl⟩
        · exact ih nrest hrest u hmem

/-- The cursors an `OpResult` carries, in any constructor. -/
def OpResult.reqsOf : OpResult → List Int
  | .ok _ reqs => reqs
  | .httpError reqs => reqs
  | .typeError reqs => reqs
  | .diverge reqs => reqs

theorem getUsers_reqsOf (resps : List (Except Unit (List RawUser))) :
    (getUsers resps).reqsOf = (paginate RawUser._id resps).reqsOf := by
  unfold getUsers
  cases paginate RawUser._id resps <;> rfl

theorem getPendingUsers_reqsOf (resps : List (Except Unit (List RawPendingUser)))
    (d : String) :
    (getPendingUsers resps d).reqsOf = (paginate RawPendingUser._id resps).reqsOf := by
  unfold getPendingUsers
  split
  · rename_i recs reqs heq
    rw [heq]
    cases mapPending (toTimestamp d) recs <;> rfl
  · rename_i reqs heq
    rw [heq]
    rfl
  · rename_i reqs heq
    rw [heq]
    rfl

theorem paginateLoop_reqs_length {α : Type} (getId : α → Int) :
    ∀ (resps : List (Except Unit (List α))) (returned acc : List α) (reqs : List Int),
    (paginateLoop getId resps returned acc reqs).reqsOf.length ≤
      reqs.length + resps.length + 1 := by
  intro resps
  induction resps with
  | nil =>
    intro returned acc reqs
    cases h : returned.getLast? <;> simp [paginateLoop, h, FetchOutcome.reqsOf]
  | cons r rest ih =>
    intro returned acc reqs
    cases h : returned.getLast? with
    | none =>
      cases r <;> simp [paginateLoop, h, FetchOutcome.reqsOf] <;> omega
    | some u =>
      cases r with
      | error e =>
        simp [paginateLoop, h, FetchOutcome.reqsOf]
      | ok page =>
        have := ih page (acc ++ page) (reqs ++ [getId u])
        simp only [paginateLoop, h]
        simp only [List.length_append, List.length_cons, List.length_nil] at this ⊢
        omega

theorem paginate_reqs_length {α : Type} (getId : α → Int)
    (resps : List (Except Unit (List α))) :
    (paginate getId resps).reqsOf.length ≤ resps.length + 1 := by
  cases resps with
  | nil => simp [paginate, FetchOutcome.reqsOf]
  | cons r rest =>
    cases r with
    | error e => simp [paginate, FetchOutcome.reqsOf]
    | ok page =>
      have := paginateLoop_reqs_length getId rest page page [0]
      simp only [paginate]
      simp only [List.length_cons, List.length_nil] at this ⊢
      omega

theorem paginateLoop_reqs_isPrefix {α : Type} (getId : α → Int) :
    ∀ (resps : List (Except Unit (List α))) (returned acc : List α) (reqs : List Int),
    reqs <+: (paginateLoop getId resps returned acc reqs).reqsOf := by
  intro resps
  induction resps with
  | nil =>
    intro returned acc reqs
    cases h : returned.getLast? <;>
      simp [paginateLoop, h, FetchOutcome.reqsOf]
  | cons r rest ih =>
    intro returned acc reqs
    cases r with
    | error e =>
      cases h : returned.getLast? <;> simp [paginateLoop, h, FetchOutcome.reqsOf]
    | ok page =>
      cases h : returned.getLast? with
      | none => simp [paginateLoop, h, FetchOutcome.reqsOf]
      | some u =>
        have hstep := ih page (acc ++ page) (reqs ++ [getId u])
        have hone : reqs <+: reqs ++ [getId u] := ⟨[getId u], rfl⟩
        simp only [paginateLoop, h]
        exact hone.trans hstep

theorem paginateLoop_step_isPrefix {α : Type} (getId : α → Int)
    (resps : List (Except Unit (List α))) (returned acc : List α) (reqs : List Int)
    (u : α) (hu : returned.getLast? = some u) :
    (reqs ++ [getId u]) <+: (paginateLoop getId resps returned acc reqs).reqsOf := by
  cases resps with
  | nil => simp [paginateLoop, hu, FetchOutcome.reqsOf]
  | cons r rest =>
    cases r with
    | error e => simp [paginateLoop, hu, FetchOutcome.reqsOf]
    | ok page =>
      simp only [paginateLoop, hu]
      exact paginateLoop_reqs_isPrefix getId rest page (acc ++ page) (reqs ++ [getId u])

/-- C1: For every sequence of server pages of sizes `[a, b, ..., 0]`, the
paginated fetch (`getUsers` and `getPendingUsers`) returns the
concatenation of all pages in server response order, of length
`a + b + ...`; in particular an immediately-empty first page yields the
empty list (take `pages = [[]]`). The request cursors are exactly the
spec's: `0` first, then after each non-empty page the `_id` of its last
record (`specCursors`). -/
theorem c1_paginated_fetch_concatenates
    (pagesU : List (List RawUser)) (pagesP : List (List RawPendingUser)) (d : String)
    (hU1 : ∀ p ∈ pagesU.dropLast, p ≠ []) (hU2 : pagesU.getLast? = some [])
    (hP1 : ∀ p ∈ pagesP.dropLast, p ≠ []) (hP2 : pagesP.getLast? = some [])
    (hP3 : ∀ u ∈ pagesP.flatten, u.login_ids ≠ []) :
    getUsers (pagesU.map Except.ok) =
      .ok (pagesU.flatten.map userTransform) (specCursors RawUser._id pagesU) ∧
    (pagesU.flatten.map userTransform).length = (pagesU.map List.length).sum ∧
    getPendingUsers (pagesP.map Except.ok) d =
      .ok (pagesP.flatten.map (pendingProject (toTimestamp d)))
        (specCursors RawPendingUser._id pagesP) ∧
    (pagesP.flatten.map (pendingProject (toTimestamp d))).length =
      (pagesP.map List.length).sum := by
  refine ⟨?_, ?_, ?_, ?_⟩
  · unfold getUsers
    rw [paginate_ok RawUser._id pagesU hU1 hU2]
  · rw [List.length_map, List.length_flatten]
  · unfold getPendingUsers
    rw [paginate_ok RawPendingUser._id pagesP hP1 hP2]
    have hm := mapPending_total (toTimestamp d) pagesP.flatten hP3
    simp [hm]
  · rw [List.length_map, List.length_flatten]

theorem c1_witness :
    getUsers (([[⟨1, ⟨"a@x"⟩, 5⟩], [⟨2, ⟨"b@x"⟩, 6⟩], []] :
        List (List RawUser)).map Except.ok) =
      .ok (([[⟨1, ⟨"a@x"⟩, 5⟩], [⟨2, ⟨"b@x"⟩, 6⟩], []] :
          List (List RawUser)).flatten.map userTransform)
        (specCursors RawUser._id [[⟨1, ⟨"a@x"⟩, 5⟩], [⟨2, ⟨"b@x"⟩, 6⟩], []]) ∧
    (([[⟨1, ⟨"a@x"⟩, 5⟩], [⟨2, ⟨"b@x"⟩, 6⟩], []] :
        List (List RawUser)).flatten.map userTransform).length =
      (([[⟨1, ⟨"a@x"⟩, 5⟩], [⟨2, ⟨"b@x"⟩, 6⟩], []] :
        List (List RawUser)).map List.length).sum ∧
    getPendingUsers (([[⟨3, [⟨"p@x.com"⟩]⟩], []] :
        List (List RawPendingUser)).map Except.ok) "2020-12-01" =
      .ok (([[⟨3, [⟨"p@x.com"⟩]⟩], []] :
          List (List RawPendingUser)).flatten.map
            (pendingProject (toTimestamp "2020-12-01")))
        (specCursors RawPendingUser._id [[⟨3, [⟨"p@x.com"⟩]⟩], []]) ∧
    (([[⟨3, [⟨"p@x.com"⟩]⟩], []] :
        List (List RawPendingUser)).flatten.map
          (pendingProject (toTimestamp "2020-12-01"))).length =
      (([[⟨3, [⟨"p@x.com"⟩]⟩], []] :
        List (List RawPendingUser)).map List.length).sum :=
  c1_paginated_fetch_concatenates
    [[⟨1, ⟨"a@x"⟩, 5⟩], [⟨2, ⟨"b@x"⟩, 6⟩], []] [[⟨3, [⟨"p@x.com"⟩]⟩], []]
    "2020-12-01" (by decide) rfl (by decide) rfl (by decide)

theorem paginateLoop_diverge {α : Type} (getId : α → Int) :
    ∀ (resps : List (Except Unit (List α))) (returned acc : List α) (reqs : List Int),
    returned ≠ [] →
    (∀ r ∈ resps, ∃ p, r = Except.ok p ∧ p ≠ []) →
    ∃ reqs', paginateLoop getId resps returned acc reqs = .diverge reqs' := by
  intro resps
  induction resps with
  | nil =>
    intro returned acc reqs hret _
    have hu : returned.getLast? = some (returned.getLast hret) :=
      List.getLast?_eq_getLast returned hret
    exact ⟨reqs ++ [getId (returned.getLast hret)], by simp [paginateLoop, hu]⟩
  | cons r rest ih =>
    intro returned acc reqs hret h
    obtain ⟨p, rfl, hp⟩ := h r (List.mem_cons_self r rest)
    have hu : returned.getLast? = some (returned.getLast hret) :=
      List.getLast?_eq_getLast returned hret
    have step : paginateLoop getId (Except.ok p :: rest) returned acc reqs =
        paginateLoop getId rest p (acc ++ p)
          (reqs ++ [getId (returned.getLast hret)]) := by
      simp [paginateLoop, hu]
    rw [step]
    exact ih p (acc ++ p) (reqs ++ [getId (returned.getLast hret)]) hp
      (fun r hr => h r (List.mem_cons_of_mem _ hr))

/-- C8: the pagination loop terminates on every response sequence that
eventually serves an empty page; on a server that only ever serves
non-empty pages, every finite response prefix leaves the loop still
requesting (`diverge`) — there is no deduplication and no maximum-page
guard. -/
theorem c8_termination_and_divergence {α : Type} (getId : α → Int) :
    (∀ pages : List (List α), (∀ p ∈ pages.dropLast, p ≠ []) →
      pages.getLast? = some [] →
      ∃ recs reqs, paginate getId (pages.map Except.ok) = .ok recs reqs) ∧
    (∀ resps : List (Except Unit (List α)),
      (∀ r ∈ resps, ∃ p, r = Except.ok p ∧ p ≠ []) →
      ∃ reqs, paginate getId resps = .diverge reqs) := by
  constructor
  · intro pages h1 h2
    exact ⟨pages.flatten, specCursors getId pages, paginate_ok getId pages h1 h2⟩
  · intro resps h
    cases resps with
    | nil => exact ⟨[0], rfl⟩
    | cons r rest =>
      obtain ⟨p, rfl, hp⟩ := h r (List.mem_cons_self r rest)
      obtain ⟨reqs', hr⟩ := paginateLoop_diverge getId rest p p [0] hp
        (fun r hr => h r (List.mem_cons_of_mem _ hr))
      exact ⟨reqs', by rw [paginate]; exact hr⟩

theorem c8_witness :
    (∃ recs reqs, paginate RawUser._id
        (([[⟨1, ⟨"a@x"⟩, 5⟩], []] : List (List RawUser)).map Except.ok) =
      .ok recs reqs) ∧
    (∃ reqs, paginate RawUser._id [Except.ok [⟨1, ⟨"a@x"⟩, 5⟩]] = .diverge reqs) :=
  ⟨(c8_termination_and_divergence RawUser._id).1 [[⟨1, ⟨"a@x"⟩, 5⟩], []]
      (by decide) rfl,
   (c8_termination_and_divergence RawUser._id).2 [Except.ok [⟨1, ⟨"a@x"⟩, 5⟩]]
      (by
        intro r hr
        rcases List.mem_singleton.mp hr with rfl
        exact ⟨[⟨1, ⟨"a@x"⟩, 5⟩], rfl, by decide⟩)⟩

/-- C10: the pagination cursor uses the numeric value `0` as the
"no cursor" sentinel. When the last record of a fetched page has `_id`
0, the next request is recorded with cursor 0 — the same cursor as the
initial request — and a cursor-0 request carries no `after` query
parameter, so its URL is identical to the initial request's. -/
theorem c10_zero_id_reuses_sentinel (g a : String) (p : List RawUser)
    (resps : List (Except Unit (List RawUser))) (u : RawUser)
    (hlast : p.getLast? = some u) (hid : u._id = 0) :
    (paginate RawUser._id (Except.ok p :: resps)).reqsOf.take 2 = [0, 0] ∧
    userQuery u._id = "" ∧
    usersUrl g a u._id = usersUrl g a 0 ∧
    pendingUsersUrl g a u._id = pendingUsersUrl g a 0 := by
  refine ⟨?_, by rw [hid]; rfl, by rw [hid], by rw [hid]⟩
  have hpre : ([0] ++ [RawUser._id u]) <+:
      (paginateLoop RawUser._id resps p p [0]).reqsOf :=
    paginateLoop_step_isPrefix RawUser._id resps p p [0] u hlast
  rw [hid] at hpre
  obtain ⟨t, ht⟩ := hpre
  have hpag : paginate RawUser._id (Except.ok p :: resps) =
      paginateLoop RawUser._id resps p p [0] := rfl
  rw [hpag, ← ht]
  rfl

theorem c10_witness :
    (paginate RawUser._id
        (Except.ok [⟨0, ⟨"e@x"⟩, 1⟩] :: [Except.ok []])).reqsOf.take 2 = [0, 0] ∧
    userQuery (⟨0, ⟨"e@x"⟩, 1⟩ : RawUser)._id = "" ∧
    usersUrl "g" "a" (⟨0, ⟨"e@x"⟩, 1⟩ : RawUser)._id = usersUrl "g" "a" 0 ∧
    pendingUsersUrl "g" "a" (⟨0, ⟨"e@x"⟩, 1⟩ : RawUser)._id =
      pendingUsersUrl "g" "a" 0 :=
  c10_zero_id_reuses_sentinel "g" "a" [⟨0, ⟨"e@x"⟩, 1⟩] [Except.ok []]
    ⟨0, ⟨"e@x"⟩, 1⟩ rfl rfl

/-- C2: for a `pendingUserDate` naming a valid `YYYY-MM-DD` calendar
date, every record `getPendingUsers` outputs has status `"pending"` and
the same `createdAt`: the date's UTC-midnight instant in epoch seconds
(`86400 *` the day number of the date); no per-record value is used. -/
theorem c2_pending_createdAt_constant
    (resps : List (Except Unit (List RawPendingUser))) (s : String)
    (y m d : Nat) (out : List NormalizedUser) (reqs : List Int)
    (hparse : parseYMD s = some (y, m, d)) (hvalid : validYMD y m d = true)
    (hrun : getPendingUsers resps s = .ok out reqs) :
    (∀ u ∈ out, u.status = "pending" ∧
      u.createdAt = some (86400 * daysFromCivil y m d)) ∧
    (∀ u ∈ out, ∀ v ∈ out, u.createdAt = v.createdAt) := by
  have hts : toTimestamp s = some (86400 * daysFromCivil y m d) := by
    unfold toTimestamp
    rw [hparse]
    simp [hvalid]
  have hfields : ∀ u ∈ out, u.status = "pending" ∧
      u.createdAt = some (86400 * daysFromCivil y m d) := by
    unfold getPendingUsers at hrun
    split at hrun
    · rename_i recs reqs' heq
      cases hm : mapPending (toTimestamp s) recs with
      | none => rw [hm] at hrun; simp at hrun
      | some out' =>
        rw [hm] at hrun
        simp only [OpResult.ok.injEq] at hrun
        obtain ⟨rfl, rfl⟩ := hrun
        intro u hu
        have := mapPending_fields (toTimestamp s) recs out' hm u hu
        rw [hts] at this
        exact this
    · simp at hrun
    · simp at hrun
  refine ⟨hfields, ?_⟩
  intro u hu v hv
  rw [(hfields u hu).2, (hfields v hv).2]

theorem c2_witness :
    (86400 * daysFromCivil 2020 12 1 : Int) = 1606780800 ∧
    ((∀ u ∈ [(⟨3, "p@x.com", some 1606780800, "pending"⟩ : NormalizedUser)],
        u.status = "pending" ∧
        u.createdAt = some (86400 * daysFromCivil 2020 12 1)) ∧
      (∀ u ∈ [(⟨3, "p@x.com", some 1606780800, "pending"⟩ : NormalizedUser)],
        ∀ v ∈ [(⟨3, "p@x.com", some 1606780800, "pending"⟩ : NormalizedUser)],
        u.createdAt = v.createdAt)) :=
  ⟨by decide,
   c2_pending_createdAt_constant
     [Except.ok [⟨3, [⟨"p@x.com"⟩]⟩], Except.ok []] "2020-12-01" 2020 12 1
     [⟨3, "p@x.com", some 1606780800, "pending"⟩] [0, 3] rfl rfl rfl⟩

/-- C9: the pending-user transform reads `login_ids[0]` without a
guard: on a record with non-empty `login_ids` the output email is the
`id` of its first login identifier, and a fetch whose pages contain a
pending record with empty `login_ids` ends in a `TypeError` instead of
producing output. -/
theorem c9_login_ids_unguarded :
    (∀ (ts : Option Int) (u : RawPendingUser) (l : LoginId) (rest : List LoginId),
      u.login_ids = l :: rest →
      pendingTransform ts u = some ⟨u._id, l.id, ts, "pending"⟩) ∧
    getPendingUsers [Except.ok [⟨7, []⟩], Except.ok []] "2020-12-01" =
      .typeError [0, 7] := by
  constructor
  · intro ts u l rest h
    simp [pendingTransform, h]
  · rfl

theorem c9_witness :
    pendingTransform (some 0) (⟨1, [⟨"e@x"⟩]⟩ : RawPendingUser) =
      some ⟨1, "e@x", some 0, "pending"⟩ :=
  c9_login_ids_unguarded.1 (some 0) ⟨1, [⟨"e@x"⟩]⟩ ⟨"e@x"⟩ [] rfl

/-- C6: two runs differing only in the `--batchSize` flag value produce
the same run result: the same requests, the same envelope, the same
file output and the same printed summary. `batchSize` is parsed
(`index.ts` 28–32, 61) but never used past a debug log line. -/
theorem c6_batchSize_noop (env : EnvVars) (args : Args) (w : World) (b1 b2 : Int) :
    runMain env { args with batchSize := b1 } w =
      runMain env { args with batchSize := b2 } w := by
  cases args
  rfl


theorem basename_no_slash (raw : String) : ∀ c ∈ (basename raw).data, c ≠ '/' := by
  intro c hc
  have hc2 : c ∈ ((raw.data.reverse.dropWhile (fun c => c = '/')).takeWhile
      (fun c => c ≠ '/')).reverse := hc
  rw [List.mem_reverse] at hc2
  have h3 := @List.mem_takeWhile_imp Char (fun c => decide (c ≠ '/'))
      (List.dropWhile (fun c => decide (c = '/')) raw.data.reverse) c hc2
  exact of_decide_eq_true h3

theorem splitSlashAux_no_slash :
    ∀ (cs cur : List Char), (∀ c ∈ cs, c ≠ '/') →
    splitSlashAux cs cur = [String.mk (cur.reverse ++ cs)] := by
  intro cs
  induction cs with
  | nil => intro cur _; simp [splitSlashAux]
  | cons c rest ih =>
    intro cur h
    have hc : c ≠ '/' := h c (List.mem_cons_self c rest)
    simp only [splitSlashAux, if_neg hc]
    rw [ih (c :: cur) (fun x hx => h x (List.mem_cons_of_mem _ hx))]
    simp

theorem splitSlash_output_append (b : String) (hb : ∀ c ∈ b.data, c ≠ '/') :
    splitSlash ("output/" ++ b) = ["output", b] := by
  have hdata : ("output/" ++ b).data =
      'o' :: 'u' :: 't' :: 'p' :: 'u' :: 't' :: '/' :: b.data := by
    rw [String.data_append]
    rfl
  unfold splitSlash
  rw [hdata]
  have hstep : splitSlashAux ('o' :: 'u' :: 't' :: 'p' :: 'u' :: 't' :: '/' :: b.data) [] =
      "output" :: splitSlashAux b.data [] := rfl
  rw [hstep, splitSlashAux_no_slash b.data [] hb]
  cases b
  rfl

theorem posixJoin_output (b : String) (h1 : b ≠ "") :
    posixJoin "output" b = match normSegsAux [] (splitSlash ("output/" ++ b)) with
      | [] => "."
      | segs => joinSegs segs := by
  have hne : ("output/" ++ b : String) ≠ "" := by
    intro h
    have hd : ("output/" ++ b).data = [] := by rw [h]
    rw [String.data_append] at hd
    simp at hd
  have houtput : ("output" : String) ≠ "" := by decide
  have hjoined : ("output" ++ "/" ++ b : String) = "output/" ++ b := rfl
  simp only [posixJoin]
  rw [if_neg houtput]
  rw [if_neg h1]
  rw [hjoined]
  rw [if_neg hne]

/-- C3 as stated is false: for `outputFile = ".."` the basename is
`".."`, `path.join('output', '..')` normalizes to `"."`, and the
resolved write path is the current directory — not inside the fixed
output directory. -/
theorem c3_counterexample :
    resolveOutputFile (some "..") = some "." ∧
    insideOutputDir "." = false ∧
    basename ".." = ".." :=
  ⟨rfl, rfl, rfl⟩

/-- C3 (amended): the resolved write path is always
`path.join('output', basename outputFile)`; whenever that basename is
none of `""`, `"."`, `".."`, the result is `output/<basename>`, which
lies inside the fixed output directory and contains no parent-directory
segment. (For basename `".."` the joined path normalizes to `"."`,
which escapes the output directory — see the counterexample.) -/
theorem c3_sanitized_path (raw : String)
    (h1 : basename raw ≠ "") (h2 : basename raw ≠ ".") (h3 : basename raw ≠ "..") :
    resolveOutputFile (some raw) = some ("output/" ++ basename raw) ∧
    hasParentSegment ("output/" ++ basename raw) = false ∧
    insideOutputDir ("output/" ++ basename raw) = true := by
  have hb := basename_no_slash raw
  have hsplit := splitSlash_output_append (basename raw) hb
  have hnorm : normSegsAux [] ["output", basename raw] = ["output", basename raw] := by
    simp [normSegsAux, h1, h2, h3]
  refine ⟨?_, ?_, ?_⟩
  · have hraw : raw ≠ "" := by
      intro h
      exact h1 (by rw [h]; rfl)
    have hres : resolveOutputFile (some raw) =
        if raw = "" then none else some (posixJoin "output" (basename raw)) := rfl
    rw [hres, if_neg hraw, posixJoin_output (basename raw) h1, hsplit, hnorm]
    rfl
  · unfold hasParentSegment
    rw [hsplit]
    simp [List.contains, Ne.symm h3]
  · unfold insideOutputDir
    rw [hsplit]
    rfl

theorem c3_witness :
    resolveOutputFile (some "x/../y.json") =
      some ("output/" ++ basename "x/../y.json") ∧
    hasParentSegment ("output/" ++ basename "x/../y.json") = false ∧
    insideOutputDir ("output/" ++ basename "x/../y.json") = true :=
  c3_sanitized_path "x/../y.json" (by decide) (by decide) (by decide)

/-- C4 as stated is false for the empty `pendingUserDate`: the
validation guard is `pendingUserDate && !regex.test(pendingUserDate)`,
and the empty string is falsy, so it skips the format check — the run
proceeds to the login HTTP call (and here to completion) although `""`
does not match `YYYY-MM-DD`. -/
theorem c4_counterexample :
    matchesYMD "" = false ∧
    (runMain ⟨some "u", some "k", some "g", some "a"⟩
        ⟨false, false, 100, none, ""⟩
        ⟨Except.ok "t", [Except.ok []], [Except.ok []], true, "D"⟩).loginCalls = 1 ∧
    (runMain ⟨some "u", some "k", some "g", some "a"⟩
        ⟨false, false, 100, none, ""⟩
        ⟨Except.ok "t", [Except.ok []], [Except.ok []], true, "D"⟩).exitCode = some 0 :=
  ⟨rfl, rfl, rfl⟩

/-- C4 (amended): when any of the four required environment variables is
unset, or when `pendingUserDate` is non-empty and fails the
`YYYY-MM-DD` pattern, the run throws the validation error: it exits
with code 1 before the login call and before any fetch request (the
empty `pendingUserDate` is falsy in JavaScript and skips the format
check). -/
theorem c4_validation_before_http (env : EnvVars) (args : Args) (w : World)
    (h : env.username = none ∨ env.apiKey = none ∨ env.groupId = none ∨
      env.appId = none ∨
      (args.pendingUserDate ≠ "" ∧ matchesYMD args.pendingUserDate = false)) :
    (runMain env args w).exitCode = some 1 ∧
    (runMain env args w).loginCalls = 0 ∧
    (runMain env args w).userReqs = [] ∧
    (runMain env args w).pendingReqs = [] := by
  have hc : configError env args.pendingUserDate = true := by
    rcases h with h | h | h | h | ⟨h1, h2⟩
    · simp [configError, falsy, h]
    · simp [configError, falsy, h]
    · simp [configError, falsy, h]
    · simp [configError, falsy, h]
    · simp [configError, falsy, h1, h2]
  simp [runMain, hc]

theorem c4_witness :
    (runMain ⟨none, some "k", some "g", some "a"⟩
        ⟨false, false, 100, none, "2020-12-01"⟩
        ⟨Except.ok "t", [], [], true, "D"⟩).exitCode = some 1 ∧
    (runMain ⟨none, some "k", some "g", some "a"⟩
        ⟨false, false, 100, none, "2020-12-01"⟩
        ⟨Except.ok "t", [], [], true, "D"⟩).loginCalls = 0 ∧
    (runMain ⟨none, some "k", some "g", some "a"⟩
        ⟨false, false, 100, none, "2020-12-01"⟩
        ⟨Except.ok "t", [], [], true, "D"⟩).userReqs = [] ∧
    (runMain ⟨none, some "k", some "g", some "a"⟩
        ⟨false, false, 100, none, "2020-12-01"⟩
        ⟨Except.ok "t", [], [], true, "D"⟩).pendingReqs = [] :=
  c4_validation_before_http ⟨none, some "k", some "g", some "a"⟩
    ⟨false, false, 100, none, "2020-12-01"⟩
    ⟨Except.ok "t", [], [], true, "D"⟩ (Or.inl rfl)

/-- C5: when `outputFile` is unset (or sanitizes away) or the dry-run
flag is set, no file is written, whatever the fetched data; a file is
written only when an output path was given and dry-run is not set; and
in a successful run that takes the summary branch, the metadata plus
the first record of each non-empty set is printed. -/
theorem c5_write_only_with_output_and_not_dryrun
    (env : EnvVars) (args : Args) (w : World) :
    ((resolveOutputFile args.outputFile = none ∨ args.dryRun = true) →
      (runMain env args w).wrote = none) ∧
    (∀ f envl, (runMain env args w).wrote = some (f, envl) →
      resolveOutputFile args.outputFile = some f ∧ args.dryRun = false) ∧
    ((runMain env args w).exitCode = some 0 →
      (resolveOutputFile args.outputFile = none ∨ args.dryRun = true) →
      ∃ us ur ps pr,
        getUsers w.userResps = .ok us ur ∧
        getPendingUsers w.pendingResps args.pendingUserDate = .ok ps pr ∧
        (runMain env args w).printed =
          some (⟨w.exportDate, env.groupId.getD "", env.appId.getD "",
            us.length, ps.length, args.pendingUserDate⟩, us.head?, ps.head?)) := by
  refine ⟨?_, ?_, ?_⟩
  · intro hdry
    unfold runMain
    split
    · rfl
    · split
      · rfl
      · split
        · rfl
        · rfl
        · rfl
        · split
          · rfl
          · rfl
          · rfl
          · split
            · rename_i f hout hdry2
              rcases hdry with hnone | htrue
              · rw [hnone] at hout
                exact absurd hout (by simp)
              · rw [htrue] at hdry2
                simp at hdry2
            · rfl
  · intro f envl hw
    unfold runMain at hw
    split at hw
    · simp at hw
    · split at hw
      · simp at hw
      · split at hw
        · simp at hw
        · simp at hw
        · simp at hw
        · split at hw
          · simp at hw
          · simp at hw
          · simp at hw
          · split at hw
            · rename_i f' hout hdry2
              split at hw
              · simp only [Option.some.injEq, Prod.mk.injEq] at hw
                obtain ⟨hf, -⟩ := hw
                rw [hf] at hout
                exact ⟨hout, (Bool.or_eq_false_iff.mp hdry2).1⟩
              · simp at hw
            · simp at hw
  · intro hexit hdry
    unfold runMain at hexit ⊢
    revert hexit
    split
    · intro hexit
      simp at hexit
    · split
      · intro hexit
        simp at hexit
      · split
        · intro hexit
          simp at hexit
        · intro hexit
          simp at hexit
        · intro hexit
          simp at hexit
        · rename_i usersOutcome users ur hequ
          split
          · intro hexit
            simp at hexit
          · intro hexit
            simp at hexit
          · intro hexit
            simp at hexit
          · rename_i pendingOutcome ps pr heqp
            split
            · rename_i f hout hdry2
              intro hexit
              rcases hdry with hnone | htrue
              · rw [hnone] at hout
                exact absurd hout (by simp)
              · rw [htrue] at hdry2
                simp at hdry2
            · intro _
              exact ⟨users, ur, ps, pr, hequ, heqp, rfl⟩

/-- An error is raised during the run when a stage the run actually
reaches fails: validation, login, one of the two fetches (HTTP error or
the transform `TypeError`), or — when the write branch is taken — the
filesystem write. Each disjunct requires the prior stages to have
succeeded, mirroring the sequential control flow of `main`
(`index.ts` 47–187). -/
def runError (env : EnvVars) (args : Args) (w : World) : Prop :=
  configError env args.pendingUserDate = true ∨
  (configError env args.pendingUserDate = false ∧ (∃ e, w.login = .error e)) ∨
  (configError env args.pendingUserDate = false ∧ (∃ t, w.login = .ok t) ∧
    ((∃ r, getUsers w.userResps = .httpError r) ∨
     (∃ r, getUsers w.userResps = .typeError r))) ∨
  (configError env args.pendingUserDate = false ∧ (∃ t, w.login = .ok t) ∧
    (∃ us ur, getUsers w.userResps = .ok us ur) ∧
    ((∃ r, getPendingUsers w.pendingResps args.pendingUserDate = .httpError r) ∨
     (∃ r, getPendingUsers w.pendingResps args.pendingUserDate = .typeError r))) ∨
  (configError env args.pendingUserDate = false ∧ (∃ t, w.login = .ok t) ∧
    (∃ us ur, getUsers w.userResps = .ok us ur) ∧
    (∃ ps pr, getPendingUsers w.pendingResps args.pendingUserDate = .ok ps pr) ∧
    (resolveOutputFile args.outputFile).isSome ∧ args.dryRun = false ∧
    w.writeOk = false)

/-- C7: the process exits 0 exactly when every stage succeeds; the
process exits 1 exactly when an error is raised during the run
(validation, authentication, fetch, transform, filesystem), and on
every such error no export file is written; a run fails to terminate
only when a fetch loop diverges, never because of an error. There is no
retry: at most one login call is made, and each fetch issues at most
one request per server response (plus the final unanswered one). -/
theorem c7_errors_propagate_no_partial_export
    (env : EnvVars) (args : Args) (w : World) :
    ((runMain env args w).exitCode = some 0 ↔ runSuccess env args w) ∧
    ((runMain env args w).exitCode = some 1 ↔ runError env args w) ∧
    (runError env args w → (runMain env args w).wrote = none) ∧
    ((runMain env args w).exitCode = none →
      (∃ r, getUsers w.userResps = .diverge r) ∨
      (∃ r, getPendingUsers w.pendingResps args.pendingUserDate = .diverge r)) ∧
    (runMain env args w).loginCalls ≤ 1 ∧
    (runMain env args w).userReqs.length ≤ w.userResps.length + 1 ∧
    (runMain env args w).pendingReqs.length ≤ w.pendingResps.length + 1 := by
  unfold runMain
  split
  · rename_i hc
    exact ⟨⟨fun h0 => by simp at h0, fun hs => absurd hc (by simp [hs.1])⟩,
      ⟨fun _ => Or.inl hc, fun _ => rfl⟩, fun _ => rfl,
      fun hN => by simp at hN, by simp, by simp, by simp⟩
  · rename_i hc
    have hcf : configError env args.pendingUserDate = false := by simpa using hc
    split
    · rename_i e heqlogin
      refine ⟨⟨fun h0 => by simp at h0, ?_⟩,
        ⟨fun _ => Or.inr (Or.inl ⟨hcf, e, heqlogin⟩), fun _ => rfl⟩, fun _ => rfl,
        fun hN => by simp at hN, by simp, by simp, by simp⟩
      rintro ⟨-, ⟨t, ht⟩, -⟩
      rw [heqlogin] at ht
      simp at ht
    · rename_i t heqlogin
      split
      · rename_i r hequ
        have hr : (getUsers w.userResps).reqsOf = r := by rw [hequ]; rfl
        refine ⟨⟨fun h0 => by simp at h0, ?_⟩,
          ⟨fun _ => Or.inr (Or.inr (Or.inl
            ⟨hcf, ⟨t, heqlogin⟩, Or.inl ⟨r, hequ⟩⟩)), fun _ => rfl⟩,
          fun _ => rfl, fun hN => by simp at hN, by simp, ?_, by simp⟩
        · rintro ⟨-, -, ⟨us, ur, hus⟩, -⟩
          rw [hequ] at hus
          simp at hus
        · rw [← hr, getUsers_reqsOf]
          exact paginate_reqs_length _ _
      · rename_i r hequ
        have hr : (getUsers w.userResps).reqsOf = r := by rw [hequ]; rfl
        refine ⟨⟨fun h0 => by simp at h0, ?_⟩,
          ⟨fun _ => Or.inr (Or.inr (Or.inl
            ⟨hcf, ⟨t, heqlogin⟩, Or.inr ⟨r, hequ⟩⟩)), fun _ => rfl⟩,
          fun _ => rfl, fun hN => by simp at hN, by simp, ?_, by simp⟩
        · rintro ⟨-, -, ⟨us, ur, hus⟩, -⟩
          rw [hequ] at hus
          simp at hus
        · rw [← hr, getUsers_reqsOf]
          exact paginate_reqs_length _ _
      · rename_i r hequ
        have hr : (getUsers w.userResps).reqsOf = r := by rw [hequ]; rfl
        have hne : ¬ runError env args w := by
          rintro (h | ⟨-, e', hE⟩ | ⟨-, -, (⟨r', hrr⟩ | ⟨r', hrr⟩)⟩ |
            ⟨-, -, ⟨us', ur', hU⟩, -⟩ | ⟨-, -, ⟨us', ur', hU⟩, -⟩)
          · exact hc h
          · rw [heqlogin] at hE
            simp at hE
          · rw [hequ] at hrr
            simp at hrr
          · rw [hequ] at hrr
            simp at hrr
          · rw [hequ] at hU
            simp at hU
          · rw [hequ] at hU
            simp at hU
        refine ⟨⟨fun h0 => by simp at h0, ?_⟩,
          ⟨fun h1 => by simp at h1, fun her => absurd her hne⟩,
          fun her => absurd her hne, fun _ => Or.inl ⟨r, hequ⟩,
          by simp, ?_, by simp⟩
        · rintro ⟨-, -, ⟨us, ur, hus⟩, -⟩
          rw [hequ] at hus
          simp at hus
        · rw [← hr, getUsers_reqsOf]
          exact paginate_reqs_length _ _
      · rename_i usersOutcome us ur hequ
        have hru : (getUsers w.userResps).reqsOf = ur := by rw [hequ]; rfl
        have hur : ur.length ≤ w.userResps.length + 1 := by
          rw [← hru, getUsers_reqsOf]
          exact paginate_reqs_length _ _
        split
        · rename_i r heqp
          have hrp : (getPendingUsers w.pendingResps args.pendingUserDate).reqsOf = r := by
            rw [heqp]; rfl
          refine ⟨⟨fun h0 => by simp at h0, ?_⟩,
            ⟨fun _ => Or.inr (Or.inr (Or.inr (Or.inl
              ⟨hcf, ⟨t, heqlogin⟩, ⟨us, ur, hequ⟩, Or.inl ⟨r, heqp⟩⟩))),
              fun _ => rfl⟩,
            fun _ => rfl, fun hN => by simp at hN, by simp, hur, ?_⟩
          · rintro ⟨-, -, -, ⟨ps, pr, hps⟩, -⟩
            rw [heqp] at hps
            simp at hps
          · rw [← hrp, getPendingUsers_reqsOf]
            exact paginate_reqs_length _ _
        · rename_i r heqp
          have hrp : (getPendingUsers w.pendingResps args.pendingUserDate).reqsOf = r := by
            rw [heqp]; rfl
          refine ⟨⟨fun h0 => by simp at h0, ?_⟩,
            ⟨fun _ => Or.inr (Or.inr (Or.inr (Or.inl
              ⟨hcf, ⟨t, heqlogin⟩, ⟨us, ur, hequ⟩, Or.inr ⟨r, heqp⟩⟩))),
              fun _ => rfl⟩,
            fun _ => rfl, fun hN => by simp at hN, by simp, hur, ?_⟩
          · rintro ⟨-, -, -, ⟨ps, pr, hps⟩, -⟩
            rw [heqp] at hps
            simp at hps
          · rw [← hrp, getPendingUsers_reqsOf]
            exact paginate_reqs_length _ _
        · rename_i r heqp
          have hrp : (getPendingUsers w.pendingResps args.pendingUserDate).reqsOf = r := by
            rw [heqp]; rfl
          have hne : ¬ runError env args w := by
            rintro (h | ⟨-, e', hE⟩ | ⟨-, -, (⟨r', hrr⟩ | ⟨r', hrr⟩)⟩ |
              ⟨-, -, -, (⟨r', hP⟩ | ⟨r', hP⟩)⟩ | ⟨-, -, -, ⟨ps', pr', hP⟩, -⟩)
            · exact hc h
            · rw [heqlogin] at hE
              simp at hE
            · rw [hequ] at hrr
              simp at hrr
            · rw [hequ] at hrr
              simp at hrr
            · rw [heqp] at hP
              simp at hP
            · rw [heqp] at hP
              simp at hP
            · rw [heqp] at hP
              simp at hP
          refine ⟨⟨fun h0 => by simp at h0, ?_⟩,
            ⟨fun h1 => by simp at h1, fun her => absurd her hne⟩,
            fun her => absurd her hne, fun _ => Or.inr ⟨r, heqp⟩,
            by simp, hur, ?_⟩
          · rintro ⟨-, -, -, ⟨ps, pr, hps⟩, -⟩
            rw [heqp] at hps
            simp at hps
          · rw [← hrp, getPendingUsers_reqsOf]
            exact paginate_reqs_length _ _
        · rename_i pendingOutcome ps pr heqp
          have hrp : (getPendingUsers w.pendingResps args.pendingUserDate).reqsOf = pr := by
            rw [heqp]; rfl
          have hpr : pr.length ≤ w.pendingResps.length + 1 := by
            rw [← hrp, getPendingUsers_reqsOf]
            exact paginate_reqs_length _ _
          split
          · rename_i f hout hdry2
            split
            · rename_i hw
              have hne : ¬ runError env args w := by
                rintro (h | ⟨-, e', hE⟩ | ⟨-, -, (⟨r', hrr⟩ | ⟨r', hrr⟩)⟩ |
                  ⟨-, -, -, (⟨r', hP⟩ | ⟨r', hP⟩)⟩ | ⟨-, -, -, -, -, -, hwf⟩)
                · exact hc h
                · rw [heqlogin] at hE
                  simp at hE
                · rw [hequ] at hrr
                  simp at hrr
                · rw [hequ] at hrr
                  simp at hrr
                · rw [heqp] at hP
                  simp at hP
                · rw [heqp] at hP
                  simp at hP
                · rw [hw] at hwf
                  simp at hwf
              refine ⟨⟨fun _ => ?_, fun _ => rfl⟩,
                ⟨fun h1 => by simp at h1, fun her => absurd her hne⟩,
                fun her => absurd her hne, fun hN => by simp at hN,
                by simp, hur, hpr⟩
              exact ⟨hcf, ⟨t, heqlogin⟩, ⟨us, ur, hequ⟩, ⟨ps, pr, heqp⟩,
                fun _ => hw⟩
            · rename_i hw
              have hwf : w.writeOk = false := by simpa using hw
              refine ⟨⟨fun h0 => by simp at h0, ?_⟩,
                ⟨fun _ => Or.inr (Or.inr (Or.inr (Or.inr
                  ⟨hcf, ⟨t, heqlogin⟩, ⟨us, ur, hequ⟩, ⟨ps, pr, heqp⟩,
                    by rw [hout]; rfl, (Bool.or_eq_false_iff.mp hdry2).1, hwf⟩))),
                  fun _ => rfl⟩,
                fun _ => rfl, fun hN => by simp at hN, by simp, hur, hpr⟩
              intro hs
              refine absurd (hs.2.2.2.2 ⟨?_, (Bool.or_eq_false_iff.mp hdry2).1⟩) hw
              rw [hout]
              rfl
          · rename_i hnm
            have hne : ¬ runError env args w := by
              rintro (h | ⟨-, e', hE⟩ | ⟨-, -, (⟨r', hrr⟩ | ⟨r', hrr⟩)⟩ |
                ⟨-, -, -, (⟨r', hP⟩ | ⟨r', hP⟩)⟩ | ⟨-, -, -, -, hsome, hdryf, -⟩)
              · exact hc h
              · rw [heqlogin] at hE
                simp at hE
              · rw [hequ] at hrr
                simp at hrr
              · rw [hequ] at hrr
                simp at hrr
              · rw [heqp] at hP
                simp at hP
              · rw [heqp] at hP
                simp at hP
              · obtain ⟨f, hf⟩ := Option.isSome_iff_exists.mp hsome
                exact hnm f hf (by rw [hf, hdryf]; rfl)
            refine ⟨⟨fun _ => ?_, fun _ => rfl⟩,
              ⟨fun h1 => by simp at h1, fun her => absurd her hne⟩,
              fun her => absurd her hne, fun hN => by simp at hN,
              by simp, hur, hpr⟩
            refine ⟨hcf, ⟨t, heqlogin⟩, ⟨us, ur, hequ⟩, ⟨ps, pr, heqp⟩, ?_⟩
            rintro ⟨hsome, hdryf⟩
            obtain ⟨f, hf⟩ := Option.isSome_iff_exists.mp hsome
            exact absurd (hnm f hf (by rw [hf, hdryf]; rfl)) (fun h => h)

theorem c5_witness :
    (runMain ⟨some "u", some "k", some "g", some "a"⟩
        ⟨true, false, 100, some "out.json", "2020-12-01"⟩
        ⟨Except.ok "t", [Except.ok []], [Except.ok []], true, "D"⟩).wrote = none :=
  (c5_write_only_with_output_and_not_dryrun ⟨some "u", some "k", some "g", some "a"⟩
      ⟨true, false, 100, some "out.json", "2020-12-01"⟩
      ⟨Except.ok "t", [Except.ok []], [Except.ok []], true, "D"⟩).1 (Or.inr rfl)

theorem c7_witness :
    (runMain ⟨some "u", some "k", some "g", some "a"⟩
        ⟨false, false, 100, some "out.json", "2020-12-01"⟩
        ⟨Except.error (), [], [], true, "D"⟩).exitCode = some 1 ∧
    (runMain ⟨some "u", some "k", some "g", some "a"⟩
        ⟨false, false, 100, some "out.json", "2020-12-01"⟩
        ⟨Except.error (), [], [], true, "D"⟩).wrote = none :=
  ⟨((c7_errors_propagate_no_partial_export ⟨some "u", some "k", some "g", some "a"⟩
      ⟨false, false, 100, some "out.json", "2020-12-01"⟩
      ⟨Except.error (), [], [], true, "D"⟩).2.1).mpr
      (Or.inr (Or.inl ⟨rfl, ⟨(), rfl⟩⟩)),
   (c7_errors_propagate_no_partial_export ⟨some "u", some "k", some "g", some "a"⟩
      ⟨false, false, 100, some "out.json", "2020-12-01"⟩
      ⟨Except.error (), [], [], true, "D"⟩).2.2.1
      (Or.inr (Or.inl ⟨rfl, ⟨(), rfl⟩⟩))⟩
